import Mathlib

/-!
Verification of `update_reading_records.py`.

The Python source parses free-text spreadsheet cells of the form
"book name <level> [note]" with two regular expressions, reformats them,
and copies legend fills onto matching cells.  This file gives a shallow
embedding of that code:

* `clean_and_format_text` embeds the Python function of the same name.
  The regex `[\s\n]+(\d{1,2}\+?)(?=\s|$|\n)` searched with `re.finditer`
  is embedded by `matchA` / `finditerA` (left-to-right, non-overlapping
  scan with the greedy backtracking the pattern actually performs), and
  the fallback `(\d{1,2}\+?)$` by `matchB` / `finditerB`.
* the legend construction and the sheet traversal of
  `update_excel_sheet` are embedded over an explicit workbook state with
  a heap of fill objects, so that `copy(...)` of a fill is an allocation
  of a fresh object with the same contents.

Character classes are the ASCII parts of Python's `\s`, `\d`, `str.strip`,
`str.capitalize`; the inputs handled by the claims are ASCII.
-/

/-- ASCII whitespace as matched by Python `\s` and stripped by `str.strip`:
space, tab, newline, carriage return, vertical tab, form feed. -/
def pyWs (c : Char) : Bool :=
  c.toNat == 32 || c.toNat == 9 || c.toNat == 10 || c.toNat == 11 ||
    c.toNat == 12 || c.toNat == 13

/-- ASCII digit, as matched by the `\d` of the source's patterns. -/
def isDig (c : Char) : Bool := 48 ≤ c.toNat && c.toNat ≤ 57

/-- Python `str.strip()`: drop whitespace from both ends. -/
def pyStrip (l : List Char) : List Char :=
  ((l.dropWhile pyWs).reverse.dropWhile pyWs).reverse

/-- Helper for Python `str.split()` with no separator: split on runs of
whitespace, dropping empty pieces.  `cur` holds the reversed current word. -/
def splitWsAux : List Char → List Char → List (List Char)
  | cur, [] => if cur.isEmpty then [] else [cur.reverse]
  | cur, c :: rest =>
    if pyWs c then
      if cur.isEmpty then splitWsAux [] rest else cur.reverse :: splitWsAux [] rest
    else splitWsAux (c :: cur) rest

/-- Python `str.capitalize()`: first character uppercased, the rest lowercased
(ASCII behaviour of `Char.toUpper` / `Char.toLower`). -/
def capitalizeWord : List Char → List Char
  | [] => []
  | c :: rest => c.toUpper :: rest.map Char.toLower

/-- Python `string.capwords(s)`:
`' '.join(x.capitalize() for x in s.split())`. -/
def capwords (l : List Char) : List Char :=
  List.intercalate [' '] ((splitWsAux [] l).map capitalizeWord)

/-- A regex match of either source pattern: `start` is `m.start()`,
`gstart` the start of capture group 1, and `gend` is both the end of the
group and `m.end()` (the trailing assertions of the patterns are
zero-width). -/
structure RMatch where
  start : Nat
  gstart : Nat
  gend : Nat
deriving DecidableEq, Repr

/-- The lookahead `(?=\s|$|\n)` of the first pattern, at position `q`:
end of string or a whitespace character. -/
def endA (l : List Char) (q : Nat) : Bool :=
  q == l.length || (match l.get? q with | some c => pyWs c | none => false)

/-- The anchor `$` of the fallback pattern, at position `q`: end of string,
or just before a newline that is the final character. -/
def endB (l : List Char) (q : Nat) : Bool :=
  q == l.length || (match l.get? q with
    | some c => c == '\n' && (q + 1 == l.length)
    | none => false)

/-- `k` consecutive ASCII digits starting at position `p`. -/
def kDigits (l : List Char) : Nat → Nat → Bool
  | _, 0 => true
  | p, k + 1 => (match l.get? p with | some c => isDig c | none => false) &&
      kDigits l (p + 1) k

/-- `\d{k}\+?` at position `p` followed by the end test `ec`, with the
greedy backtracking of `\+?`: the plus is consumed first and given up if the
end test fails after it (for both end tests of the source the backtracked
alternative then sits on the literal `+` and fails, which we keep verbatim).
Returns the end position of the consumed text (group end). -/
def tryDigits (l : List Char) (p k : Nat) (ec : Nat → Bool) : Option Nat :=
  if kDigits l p k then
    match l.get? (p + k) with
    | some c =>
      if c == '+' then
        if ec (p + k + 1) then some (p + k + 1)
        else if ec (p + k) then some (p + k)
        else none
      else if ec (p + k) then some (p + k) else none
    | none => if ec (p + k) then some (p + k) else none
  else none

/-- Length of the whitespace run starting at position `i` (the greedy
`[\s\n]+`).  Backtracking this run can never produce a match the maximal
run does not: the pattern requires a digit right after the run, and every
shorter run is followed by another whitespace character. -/
def wsRun (l : List Char) (i : Nat) : Nat := ((l.drop i).takeWhile pyWs).length

/-- Attempt of the pattern `[\s\n]+(\d{1,2}\+?)(?=\s|$|\n)` at position `i`:
a non-empty whitespace run, then greedily two digits, else one, then the
optional plus and the lookahead. -/
def matchA (l : List Char) (i : Nat) : Option RMatch :=
  if wsRun l i == 0 then none
  else
    match tryDigits l (i + wsRun l i) 2 (endA l) with
    | some g => some ⟨i, i + wsRun l i, g⟩
    | none =>
      match tryDigits l (i + wsRun l i) 1 (endA l) with
      | some g => some ⟨i, i + wsRun l i, g⟩
      | none => none

/-- Attempt of the fallback pattern `(\d{1,2}\+?)$` at position `i`. -/
def matchB (l : List Char) (i : Nat) : Option RMatch :=
  match tryDigits l i 2 (endB l) with
  | some g => some ⟨i, i, g⟩
  | none =>
    match tryDigits l i 1 (endB l) with
    | some g => some ⟨i, i, g⟩
    | none => none

/-- `re.finditer` scan: try the matcher at each position left to right; on a
match, record it and continue at its end (both patterns only produce
non-empty matches).  `fuel` bounds the recursion; `l.length + 1` is always
enough since every step advances the position. -/
def goIter (matcher : List Char → Nat → Option RMatch) (l : List Char) :
    Nat → Nat → List RMatch
  | 0, _ => []
  | fuel + 1, i =>
    if i < l.length then
      match matcher l i with
      | some m => m :: goIter matcher l fuel m.gend
      | none => goIter matcher l fuel (i + 1)
    else []

/-- All matches of `[\s\n]+(\d{1,2}\+?)(?=\s|$|\n)`, in order. -/
def finditerA (l : List Char) : List RMatch := goIter matchA l (l.length + 1) 0

/-- All matches of the fallback `(\d{1,2}\+?)$`, in order. -/
def finditerB (l : List Char) : List RMatch := goIter matchB l (l.length + 1) 0

/-- Python slice `l[a:b]`. -/
def sliceL (l : List Char) (a b : Nat) : List Char := (l.take b).drop a

/-- The match list the source ends up using: the first pattern's matches,
or, when there are none, the fallback pattern's. -/
def msel (l : List Char) : List RMatch :=
  if (finditerA l).isEmpty then finditerB l else finditerA l

/-- Embedding of `clean_and_format_text` from `update_reading_records.py`:
empty input gives `(None, None)`; otherwise the input is stripped, the last
match of the selected pattern splits it into name / level / suffix, the name
is passed through `string.capwords`, and the parts are joined with newlines.
With no match at all, the stripped text is returned with no level. -/
def clean_and_format_text (text : String) : Option String × Option String :=
  if text.data.isEmpty then (none, none)
  else
    let val := pyStrip text.data
    match (msel val).getLast? with
    | some m =>
      let levelStr := sliceL val m.gstart m.gend
      let namePart := capwords (pyStrip (val.take m.start))
      let suffixPart := pyStrip (val.drop m.gend)
      let newVal := namePart ++ '\n' :: levelStr ++
        (if suffixPart.isEmpty then [] else '\n' :: suffixPart)
      (some (String.mk newVal), some (String.mk levelStr))
    | none => (some (String.mk val), none)

/-- Helper for `specTitleCase`: `atStart` is true at the beginning and right
after whitespace. -/
def specTitleCaseAux (atStart : Bool) : List Char → List Char
  | [] => []
  | c :: rest =>
    if pyWs c then c :: specTitleCaseAux true rest
    else (if atStart then c.toUpper else c) :: specTitleCaseAux false rest

/-- The title-caser described by the specification's words: "capitalize the
first letter of every whitespace-separated word", leaving every other
character (including internal whitespace runs) unchanged.  It is compared
against the source's `string.capwords`, which also lowercases the rest of
each word and collapses whitespace runs. -/
def specTitleCase (l : List Char) : List Char := specTitleCaseAux true l

/-- A well-formed level string: 1-2 digits with an optional trailing plus. -/
def levelTok (l : List Char) : Bool :=
  match l with
  | [a] => isDig a
  | [a, b] => isDig a && (isDig b || b == '+')
  | [a, b, c] => isDig a && isDig b && c == '+'
  | _ => false

/-! ## Workbook model for `update_excel_sheet`

Fill style objects live in a heap `fills : Nat → Fill` indexed by object
ids; cells hold an id.  `copy(...)` of a fill allocates a fresh id
(`nextId`) carrying the same contents, which is exactly Python's
`copy.copy` at the level of the style object itself. -/

/-- Contents of an openpyxl fill: pattern type and the two colours. -/
structure Fill where
  patternType : String
  fgColor : String
  bgColor : String
deriving DecidableEq, Repr

/-- Contents of an openpyxl `Alignment`. -/
structure PyAlign where
  wrapText : Bool
  vertical : String
  horizontal : String
deriving DecidableEq, Repr

/-- A spreadsheet cell: optional text value, the id of its fill object,
and its alignment. -/
structure XCell where
  value : Option String
  fill : Nat
  alignment : PyAlign
deriving DecidableEq

/-- A worksheet: its `max_column` and its cells, addressed by (row, column). -/
structure Sheet where
  maxCol : Nat
  cells : Nat → Nat → XCell

/-- A workbook: sheet names, the one sheet the script touches, and the heap
of fill objects with its allocation counter. -/
structure Workbook where
  sheetnames : List String
  ws : Sheet
  fills : Nat → Fill
  nextId : Nat

/-- Write one cell of a sheet. -/
def setCell (ws : Sheet) (a b : Nat) (cell : XCell) : Sheet :=
  { ws with cells := fun r c => if r = a ∧ c = b then cell else ws.cells r c }

/-- Overwrite the contents of one fill object in the heap (a later in-place
mutation of a style object, used to state the non-aliasing claim). -/
def setFillContent (wb : Workbook) (i : Nat) (f : Fill) : Workbook :=
  { wb with fills := fun j => if j = i then f else wb.fills j }

/-- `Alignment(wrap_text=True, vertical='center', horizontal='center')`. -/
def centerAlign : PyAlign := ⟨true, "center", "center"⟩

/-- Python dict assignment `m[k] = v`: overwrite in place if the key exists
(keeping its position), else append.  Keys stay in first-insertion order,
like `dict` iteration order. -/
def dinsert (m : List (String × Nat)) (k : String) (v : Nat) :
    List (String × Nat) :=
  if (m.find? (fun p => p.1 == k)).isSome then
    m.map (fun p => if p.1 == k then (p.1, v) else p)
  else m ++ [(k, v)]

/-- Python dict lookup: the value stored at the key, if present. -/
def dlookup (m : List (String × Nat)) (k : String) : Option Nat :=
  (m.find? (fun p => p.1 == k)).map Prod.snd

/-- A cell value for which the recoloring step does not fire: no truthy
value, no extracted level, or a level absent from the legend map. -/
def levelKeyMiss (map : List (String × Nat)) (v : Option String) : Bool :=
  match v with
  | none => true
  | some s =>
    s.data.isEmpty ||
      (match (clean_and_format_text s).2 with
       | none => true
       | some l => (dlookup map l).isNone)

/-- The legend rows `range(57, 78)`. -/
def legendRows : List Nat := List.range' 57 21

/-- Legend construction (source lines 77-88): for each row of C57:C77 whose
cell value is non-None and strips to a non-empty string, map that string to
the id of the legend cell's fill object. -/
def buildLegend (ws : Sheet) : List (String × Nat) :=
  legendRows.foldl
    (fun m rw =>
      let cell := ws.cells rw 3
      match cell.value with
      | some v =>
        let lv := pyStrip v.data
        if lv.isEmpty then m else dinsert m (String.mk lv) cell.fill
      | none => m)
    []

/-- One step of the main loop (source lines 103-116): if the cell has a
truthy value, write back the cleaned text, force the fixed alignment, and,
when the extracted level is a truthy key of the legend map, give the cell a
fresh copy of the mapped fill object. -/
def processCell (map : List (String × Nat)) (wb : Workbook) (rc : Nat × Nat) :
    Workbook :=
  let cell := wb.ws.cells rc.1 rc.2
  match cell.value with
  | none => wb
  | some v =>
    if v.data.isEmpty then wb
    else
      let res := clean_and_format_text v
      let cell1 : XCell :=
        { value := res.1, fill := cell.fill, alignment := centerAlign }
      match res.2 with
      | some lvl =>
        if lvl.data.isEmpty then { wb with ws := setCell wb.ws rc.1 rc.2 cell1 }
        else
          match dlookup map lvl with
          | some ref =>
            { wb with
              ws := setCell wb.ws rc.1 rc.2 { cell1 with fill := wb.nextId },
              fills := fun i => if i = wb.nextId then wb.fills ref else wb.fills i,
              nextId := wb.nextId + 1 }
          | none => { wb with ws := setCell wb.ws rc.1 rc.2 cell1 }
      | none => { wb with ws := setCell wb.ws rc.1 rc.2 cell1 }

/-- The cells visited by the main loop, in source order: rows `range(2, 57)`
outer, columns `range(6, max_column + 1)` inner. -/
def dataPositions (maxCol : Nat) : List (Nat × Nat) :=
  (List.range' 2 55).flatMap (fun r => (List.range' 6 (maxCol + 1 - 6)).map (fun c => (r, c)))

/-- The whole main table pass of `update_excel_sheet`. -/
def runTable (wb : Workbook) (map : List (String × Nat)) : Workbook :=
  (dataPositions wb.ws.maxCol).foldl (processCell map) wb

/-- The fixed sheet name of the source. -/
def sheetName : String := "2B Liben 2.0"

/-- The fixed output path of the source. -/
def outputFilename : String := "Liben_Kbely_Reading_records_Updated.xlsx"

/-- Python `repr` of a list of strings, as printed for the legend keys. -/
def pyReprStrList (xs : List String) : String :=
  "[" ++ String.intercalate ", " (xs.map (fun s => "\x27" ++ s ++ "\x27")) ++ "]"

/-- Embedding of `update_excel_sheet`: `fs` stands for the file system
(`openpyxl.load_workbook` raising `FileNotFoundError` becomes `fs fn = none`).
Returns the lines printed and, when a save happens, the output file name with
the saved workbook.  A missing file or a missing sheet prints a diagnostic
and returns with no save. -/
def update_excel_sheet (fs : String → Option Workbook) (filename : String) :
    List String × Option (String × Workbook) :=
  let loading := "Loading " ++ filename ++ "..."
  match fs filename with
  | none =>
    ([loading, "Error: File not found. Please ensure the Excel file is in the same folder."], none)
  | some wb =>
    if sheetName ∈ wb.sheetnames then
      let map := buildLegend wb.ws
      let wb2 := runTable wb map
      ([loading,
        "Reading color legend from C57:C77...",
        "Found color codes for levels: " ++ pyReprStrList (map.map Prod.fst),
        "Processing table rows 2-56...",
        "Done! Saved updated file as: " ++ outputFilename],
       some (outputFilename, wb2))
    else
      ([loading, "Error: Sheet \x27" ++ sheetName ++ "\x27 not found."], none)

/-! ## Facts about the embedded regex scanner -/

lemma pyWs_of_isDig {c : Char} (h : isDig c = true) : pyWs c = false := by
  simp only [isDig, Bool.and_eq_true, decide_eq_true_eq] at h
  simp only [pyWs, Bool.or_eq_false_iff, beq_eq_false_iff_ne]
  omega

lemma takeWhile_get? {p : Char → Bool} (xs : List Char) (t : Nat)
    (h : t < (xs.takeWhile p).length) : ∃ c, xs.get? t = some c ∧ p c = true := by
  induction xs generalizing t with
  | nil => simp at h
  | cons x xs ih =>
    rw [List.takeWhile_cons] at h
    by_cases hp : p x = true
    · rw [if_pos hp] at h
      cases t with
      | zero => exact ⟨x, rfl, hp⟩
      | succ t =>
        simp only [List.length_cons] at h
        exact ih t (by omega)
    · rw [if_neg hp] at h; simp at h

lemma wsRun_get? {l : List Char} {i t : Nat} (h : t < wsRun l i) :
    ∃ c, l.get? (i + t) = some c ∧ pyWs c = true := by
  obtain ⟨c, hc, hw⟩ := takeWhile_get? (l.drop i) t h
  rw [List.get?_drop] at hc
  exact ⟨c, hc, hw⟩

lemma wsRun_zero {l : List Char} {i : Nat}
    (h : ∀ c, l.get? i = some c → pyWs c = false) : wsRun l i = 0 := by
  unfold wsRun
  cases hd : l.drop i with
  | nil => rfl
  | cons c rest =>
    have hc : l.get? i = some c := by
      have h0 := List.get?_drop l i 0
      rw [hd] at h0
      simpa using h0.symm
    rw [List.takeWhile_cons, if_neg (by simp [h c hc])]
    rfl

lemma kDigits_get? {l : List Char} : ∀ {k p : Nat}, kDigits l p k = true →
    ∀ t, t < k → ∃ c, l.get? (p + t) = some c ∧ isDig c = true := by
  intro k
  induction k with
  | zero => intro p _ t ht; omega
  | succ k ih =>
    intro p h t ht
    rw [kDigits, Bool.and_eq_true] at h
    obtain ⟨h1, h2⟩ := h
    cases t with
    | zero =>
      cases hc : l.get? p with
      | none => rw [hc] at h1; simp at h1
      | some c => rw [hc] at h1; exact ⟨c, by simpa using hc, h1⟩
    | succ t =>
      obtain ⟨c, hc, hd⟩ := ih h2 t (by omega)
      rw [show p + 1 + t = p + (t + 1) by omega] at hc
      exact ⟨c, hc, hd⟩

lemma tryDigits_some {l : List Char} {p k g : Nat} {ec : Nat → Bool}
    (hk : 1 ≤ k) (h : tryDigits l p k ec = some g) :
    p < g ∧ g ≤ l.length ∧ ec g = true ∧
      ∀ t, p ≤ t → t < g → ∃ c, l.get? t = some c ∧ (isDig c || c == '+') = true := by
  unfold tryDigits at h
  by_cases hkd : kDigits l p k = true
  swap
  · rw [if_neg hkd] at h; cases h
  rw [if_pos hkd] at h
  have hdig := kDigits_get? hkd
  have hgrp : ∀ t, p ≤ t → t < p + k →
      ∃ c, l.get? t = some c ∧ (isDig c || c == '+') = true := by
    intro t h1 h2
    obtain ⟨c, hc, hd⟩ := hdig (t - p) (by omega)
    rw [show p + (t - p) = t by omega] at hc
    exact ⟨c, hc, by simp [hd]⟩
  have hplen : p + k ≤ l.length := by
    obtain ⟨c, hc, -⟩ := hdig (k - 1) (by omega)
    obtain ⟨hlt, -⟩ := List.get?_eq_some.mp hc
    omega
  split at h
  next c hq =>
    have hqlen : p + k < l.length := (List.get?_eq_some.mp hq).1
    split at h
    case isTrue hplus =>
      split at h
      case isTrue he1 =>
        injection h with h; subst h
        refine ⟨by omega, by omega, he1, fun t h1 h2 => ?_⟩
        by_cases ht : t < p + k
        · exact hgrp t h1 ht
        · rw [show t = p + k by omega]
          exact ⟨c, hq, by simp [hplus]⟩
      case isFalse he1 =>
        split at h
        case isTrue he0 =>
          injection h with h; subst h
          exact ⟨by omega, by omega, he0, fun t h1 h2 => hgrp t h1 h2⟩
        case isFalse he0 => cases h
    case isFalse hplus =>
      split at h
      case isTrue he =>
        injection h with h; subst h
        exact ⟨by omega, by omega, he, fun t h1 h2 => hgrp t h1 h2⟩
      case isFalse he => cases h
  next hq =>
    split at h
    case isTrue he =>
      injection h with h; subst h
      exact ⟨by omega, by omega, he, fun t h1 h2 => hgrp t h1 h2⟩
    case isFalse he => cases h

lemma matchA_spec {l : List Char} {i : Nat} {m : RMatch} (h : matchA l i = some m) :
    m.start = i ∧ i < m.gstart ∧ m.gstart < m.gend ∧ m.gend ≤ l.length ∧
      (∀ t, i ≤ t → t < m.gstart → ∃ c, l.get? t = some c ∧ pyWs c = true) ∧
      (∀ t, m.gstart ≤ t → t < m.gend →
        ∃ c, l.get? t = some c ∧ (isDig c || c == '+') = true) := by
  unfold matchA at h
  by_cases hw : (wsRun l i == 0) = true
  · rw [if_pos hw] at h; cases h
  rw [if_neg hw] at h
  have hw1 : 0 < wsRun l i := by
    simp only [beq_iff_eq] at hw; omega
  have hws : ∀ t, i ≤ t → t < i + wsRun l i →
      ∃ c, l.get? t = some c ∧ pyWs c = true := by
    intro t h1 h2
    obtain ⟨c, hc, hp⟩ := wsRun_get? (show t - i < wsRun l i by omega)
    rw [show i + (t - i) = t by omega] at hc
    exact ⟨c, hc, hp⟩
  cases h2 : tryDigits l (i + wsRun l i) 2 (endA l) with
  | some g =>
    rw [h2] at h
    injection h with h; subst h
    obtain ⟨hpg, hgl, -, hgrp⟩ := tryDigits_some (by omega) h2
    exact ⟨rfl, show i < i + wsRun l i by omega, hpg, hgl, hws, hgrp⟩
  | none =>
    rw [h2] at h
    cases h1 : tryDigits l (i + wsRun l i) 1 (endA l) with
    | some g =>
      rw [h1] at h
      injection h with h; subst h
      obtain ⟨hpg, hgl, -, hgrp⟩ := tryDigits_some (by omega) h1
      exact ⟨rfl, show i < i + wsRun l i by omega, hpg, hgl, hws, hgrp⟩
    | none => rw [h1] at h; cases h

lemma matchB_spec {l : List Char} {i : Nat} {m : RMatch} (h : matchB l i = some m) :
    m.start = i ∧ m.gstart = i ∧ i < m.gend ∧ m.gend ≤ l.length := by
  unfold matchB at h
  cases h2 : tryDigits l i 2 (endB l) with
  | some g =>
    rw [h2] at h
    injection h with h; subst h
    obtain ⟨hpg, hgl, -, -⟩ := tryDigits_some (by omega) h2
    exact ⟨rfl, rfl, hpg, hgl⟩
  | none =>
    rw [h2] at h
    cases h1 : tryDigits l i 1 (endB l) with
    | some g =>
      rw [h1] at h
      injection h with h; subst h
      obtain ⟨hpg, hgl, -, -⟩ := tryDigits_some (by omega) h1
      exact ⟨rfl, rfl, hpg, hgl⟩
    | none => rw [h1] at h; cases h

lemma goIter_stop {matcher : List Char → Nat → Option RMatch} {l : List Char}
    {fuel i : Nat} (h : l.length ≤ i) : goIter matcher l fuel i = [] := by
  cases fuel with
  | zero => rfl
  | succ fuel => simp only [goIter]; rw [if_neg (by omega)]

lemma goIter_nil {matcher : List Char → Nat → Option RMatch} {l : List Char}
    (h : ∀ j, j < l.length → matcher l j = none) :
    ∀ fuel i, goIter matcher l fuel i = [] := by
  intro fuel
  induction fuel with
  | zero => intro i; rfl
  | succ fuel ih =>
    intro i
    simp only [goIter]
    by_cases hi : i < l.length
    · rw [if_pos hi, h i hi]
      exact ih (i + 1)
    · rw [if_neg hi]

lemma goIter_mem {matcher : List Char → Nat → Option RMatch} {l : List Char} :
    ∀ {fuel i : Nat} {m : RMatch}, m ∈ goIter matcher l fuel i →
      ∃ j, matcher l j = some m := by
  intro fuel
  induction fuel with
  | zero => intro i m h; simp [goIter] at h
  | succ fuel ih =>
    intro i m h
    simp only [goIter] at h
    by_cases hi : i < l.length
    · rw [if_pos hi] at h
      cases hm : matcher l i with
      | some m2 =>
        rw [hm] at h
        rcases List.mem_cons.mp h with h | h
        · exact ⟨i, by rw [hm, h]⟩
        · exact ih h
      | none =>
        rw [hm] at h
        exact ih h
    · rw [if_neg hi] at h; simp at h

lemma getLast?_cons_ne_nil {α : Type} {m : α} {l : List α} (h : l ≠ []) :
    (m :: l).getLast? = l.getLast? := by
  cases l with
  | nil => exact absurd rfl h
  | cons a l => exact List.getLast?_cons_cons

lemma goIter_last {matcher : List Char → Nat → Option RMatch} {l : List Char}
    {q : Nat} {mq : RMatch}
    (hmono : ∀ j m, matcher l j = some m → j < m.gend)
    (hq : matcher l q = some mq) (hqend : mq.gend = l.length) (hql : q < l.length)
    (hbef : ∀ j m, j < q → matcher l j = some m → m.gend ≤ q) :
    ∀ fuel i, i ≤ q → l.length + 1 ≤ fuel + i →
      goIter matcher l fuel i ≠ [] ∧
        (goIter matcher l fuel i).getLast? = some mq := by
  intro fuel
  induction fuel with
  | zero => intro i hiq hfuel; exfalso; omega
  | succ fuel ih =>
    intro i hiq hfuel
    simp only [goIter]
    rw [if_pos (show i < l.length by omega)]
    by_cases hieq : i = q
    · subst hieq
      simp only [hq]
      rw [goIter_stop (show l.length ≤ mq.gend by omega)]
      exact ⟨by simp, rfl⟩
    · have hilt : i < q := by omega
      cases hm : matcher l i with
      | none =>
        exact ih (i + 1) (by omega) (by omega)
      | some m =>
        have hend := hbef i m hilt hm
        have hadv := hmono i m hm
        obtain ⟨hne, hlast⟩ := ih m.gend (by omega) (by omega)
        refine ⟨?_, ?_⟩
        · show m :: goIter matcher l fuel m.gend ≠ []
          simp
        · show (m :: goIter matcher l fuel m.gend).getLast? = some mq
          rw [getLast?_cons_ne_nil hne]
          exact hlast

/-! ## Facts about `pyStrip` and level tokens -/

lemma dropWhile_eq_self_parts {l : List Char} (h : pyStrip l = l) :
    l.dropWhile pyWs = l ∧ l.reverse.dropWhile pyWs = l.reverse := by
  have hsa : l.dropWhile pyWs <:+ l := List.dropWhile_suffix pyWs
  have hsb : (l.dropWhile pyWs).reverse.dropWhile pyWs <:+ (l.dropWhile pyWs).reverse :=
    List.dropWhile_suffix pyWs
  have hlen : ((l.dropWhile pyWs).reverse.dropWhile pyWs).length = l.length := by
    have := congrArg List.length h
    simpa [pyStrip] using this
  have hla : (l.dropWhile pyWs).length = l.length := by
    have h1 := hsa.length_le
    have h2 := hsb.length_le
    simp only [List.length_reverse] at h2
    omega
  have ha : l.dropWhile pyWs = l := hsa.eq_of_length hla
  refine ⟨ha, ?_⟩
  have hb : (l.dropWhile pyWs).reverse.dropWhile pyWs = l.reverse := by
    have : ((l.dropWhile pyWs).reverse.dropWhile pyWs).reverse = l := by
      simpa [pyStrip] using h
    rw [← List.reverse_inj, List.reverse_reverse] at this
    rw [this]
  rw [ha] at hb
  exact hb

lemma head_nonws_of_dropWhile_eq {l : List Char} (h : l.dropWhile pyWs = l) :
    ∀ c, l.head? = some c → pyWs c = false := by
  cases l with
  | nil => intro c hc; cases hc
  | cons x rest =>
    intro c hc
    rw [List.head?_cons, Option.some.injEq] at hc
    subst hc
    cases hpw : pyWs x with
    | false => rfl
    | true =>
      exfalso
      rw [List.dropWhile_cons, if_pos hpw] at h
      have hle := (@List.dropWhile_suffix Char rest pyWs).length_le
      have hlen := congrArg List.length h
      simp only [List.length_cons] at hlen
      omega

lemma strip_bounds {l : List Char} (h : pyStrip l = l) :
    (∀ c, l.head? = some c → pyWs c = false) ∧
      (∀ c, l.getLast? = some c → pyWs c = false) := by
  obtain ⟨h1, h2⟩ := dropWhile_eq_self_parts h
  refine ⟨head_nonws_of_dropWhile_eq h1, ?_⟩
  intro c hc
  rw [List.getLast?_eq_head?_reverse] at hc
  exact head_nonws_of_dropWhile_eq h2 c hc

lemma pyStrip_eq_self {l : List Char}
    (h1 : ∀ c, l.head? = some c → pyWs c = false)
    (h2 : ∀ c, l.getLast? = some c → pyWs c = false) : pyStrip l = l := by
  unfold pyStrip
  have hd : l.dropWhile pyWs = l := by
    cases l with
    | nil => rfl
    | cons x rest => rw [List.dropWhile_cons, if_neg (by simp [h1 x List.head?_cons])]
  rw [hd]
  have hd2 : l.reverse.dropWhile pyWs = l.reverse := by
    cases hr : l.reverse with
    | nil => rfl
    | cons x rest =>
      have hx : l.getLast? = some x := by
        rw [List.getLast?_eq_head?_reverse, hr, List.head?_cons]
      rw [List.dropWhile_cons, if_neg (by simp [h2 x hx])]
  rw [hd2, List.reverse_reverse]

lemma pyWs_plus : pyWs '+' = false := by decide

lemma levelTok_shapes {lv : List Char} (hlv : levelTok lv = true) :
    (∃ a, lv = [a] ∧ isDig a = true) ∨
    (∃ a b, lv = [a, b] ∧ isDig a = true ∧ (isDig b || b == '+') = true) ∨
    (∃ a b, lv = [a, b, '+'] ∧ isDig a = true ∧ isDig b = true) := by
  rcases lv with _ | ⟨a, _ | ⟨b, _ | ⟨c, _ | ⟨d, rest⟩⟩⟩⟩
  · simp [levelTok] at hlv
  · exact Or.inl ⟨a, rfl, by simpa [levelTok] using hlv⟩
  · simp only [levelTok, Bool.and_eq_true] at hlv
    exact Or.inr (Or.inl ⟨a, b, rfl, hlv.1, hlv.2⟩)
  · simp only [levelTok, Bool.and_eq_true, beq_iff_eq] at hlv
    obtain ⟨⟨h1, h2⟩, h3⟩ := hlv
    subst h3
    exact Or.inr (Or.inr ⟨a, b, rfl, h1, h2⟩)
  · simp [levelTok] at hlv

lemma pyWs_of_digit_or_plus {c : Char} (h : (isDig c || c == '+') = true) :
    pyWs c = false := by
  rcases Bool.or_eq_true _ _ |>.mp h with h | h
  · exact pyWs_of_isDig h
  · rw [beq_iff_eq.mp h]; exact pyWs_plus

lemma levelTok_get_nonws {lv : List Char} (hlv : levelTok lv = true) :
    ∀ t c, lv.get? t = some c → pyWs c = false := by
  intro t c hc
  rcases levelTok_shapes hlv with ⟨a, h, ha⟩ | ⟨a, b, h, ha, hb⟩ | ⟨a, b, h, ha, hb⟩ <;> subst h
  · match t, hc with
    | 0, hc =>
      rw [List.get?_cons_zero, Option.some.injEq] at hc
      subst hc; exact pyWs_of_isDig ha
  · match t, hc with
    | 0, hc =>
      rw [List.get?_cons_zero, Option.some.injEq] at hc
      subst hc; exact pyWs_of_isDig ha
    | 1, hc =>
      simp only [List.get?_cons_succ, List.get?_cons_zero, Option.some.injEq] at hc
      subst hc; exact pyWs_of_digit_or_plus hb
  · match t, hc with
    | 0, hc =>
      rw [List.get?_cons_zero, Option.some.injEq] at hc
      subst hc; exact pyWs_of_isDig ha
    | 1, hc =>
      simp only [List.get?_cons_succ, List.get?_cons_zero, Option.some.injEq] at hc
      subst hc; exact pyWs_of_isDig hb
    | 2, hc =>
      simp only [List.get?_cons_succ, List.get?_cons_zero, Option.some.injEq] at hc
      subst hc; exact pyWs_plus

lemma levelTok_head {lv : List Char} (hlv : levelTok lv = true) :
    ∀ c rest, lv = c :: rest → isDig c = true := by
  intro c rest h
  rcases levelTok_shapes hlv with ⟨a, h2, ha⟩ | ⟨a, b, h2, ha, hb⟩ | ⟨a, b, h2, ha, hb⟩ <;>
    subst h2 <;> injection h with h1 _ <;> subst h1 <;> exact ha

lemma levelTok_getLast_nonws {lv : List Char} (hlv : levelTok lv = true) :
    ∀ c, lv.getLast? = some c → pyWs c = false := by
  intro c hc
  rcases levelTok_shapes hlv with ⟨a, h, ha⟩ | ⟨a, b, h, ha, hb⟩ | ⟨a, b, h, ha, hb⟩ <;> subst h
  · have h2 : a = c := by simpa [List.getLast?] using hc
    subst h2; exact pyWs_of_isDig ha
  · have h2 : b = c := by simpa [List.getLast?] using hc
    subst h2; exact pyWs_of_digit_or_plus hb
  · have h2 : '+' = c := by simpa [List.getLast?] using hc
    rw [← h2]; exact pyWs_plus

lemma levelTok_ne_nil {lv : List Char} (hlv : levelTok lv = true) : lv ≠ [] := by
  rcases levelTok_shapes hlv with ⟨a, h, -⟩ | ⟨a, b, h, -⟩ | ⟨a, b, h, -⟩ <;> subst h <;> simp

/-! ## Shifting a match of the first pattern across a prefix -/

lemma kDigits_append (u v : List Char) : ∀ (k p : Nat),
    kDigits (u ++ v) (u.length + p) k = kDigits v p k := by
  intro k
  induction k with
  | zero => intro p; rfl
  | succ k ih =>
    intro p
    rw [kDigits, kDigits]
    rw [List.get?_append_right (by omega), Nat.add_sub_cancel_left]
    rw [show u.length + p + 1 = u.length + (p + 1) by omega]
    rw [ih (p + 1)]

lemma endA_append (u v : List Char) (q : Nat) :
    endA (u ++ v) (u.length + q) = endA v q := by
  unfold endA
  rw [List.length_append]
  rw [List.get?_append_right (by omega), Nat.add_sub_cancel_left]
  congr 1
  by_cases h : q = v.length
  · subst h; simp
  · rw [beq_eq_false_iff_ne.mpr (by omega), beq_eq_false_iff_ne.mpr h]

lemma tryDigits_append (u v : List Char) (ecuv ecv : Nat → Bool)
    (hec : ∀ q, ecuv (u.length + q) = ecv q) (p k : Nat) :
    tryDigits (u ++ v) (u.length + p) k ecuv =
      (tryDigits v p k ecv).map (fun g => u.length + g) := by
  unfold tryDigits
  rw [kDigits_append]
  by_cases hkd : kDigits v p k = true
  · rw [if_pos hkd, if_pos hkd]
    rw [show u.length + p + k = u.length + (p + k) by omega]
    rw [List.get?_append_right (by omega), Nat.add_sub_cancel_left]
    cases hq : v.get? (p + k) with
    | none =>
      simp only [hq]
      rw [hec]
      by_cases he : ecv (p + k) = true
      · rw [if_pos he, if_pos he]; simp
      · rw [if_neg he, if_neg he]; simp
    | some c =>
      simp only [hq]
      by_cases hplus : (c == '+') = true
      · rw [if_pos hplus, if_pos hplus]
        rw [show u.length + (p + k) + 1 = u.length + (p + k + 1) by omega, hec, hec]
        by_cases he1 : ecv (p + k + 1) = true
        · rw [if_pos he1, if_pos he1]; simp
        · rw [if_neg he1, if_neg he1]
          by_cases he0 : ecv (p + k) = true
          · rw [if_pos he0, if_pos he0]; simp
          · rw [if_neg he0, if_neg he0]; simp
      · rw [if_neg hplus, if_neg hplus]
        rw [hec]
        by_cases he : ecv (p + k) = true
        · rw [if_pos he, if_pos he]; simp
        · rw [if_neg he, if_neg he]; simp
  · rw [if_neg hkd, if_neg hkd]; simp

lemma wsRun_append (u v : List Char) (j : Nat) :
    wsRun (u ++ v) (u.length + j) = wsRun v j := by
  unfold wsRun
  rw [List.drop_append]

lemma matchA_append (u v : List Char) (j : Nat) :
    matchA (u ++ v) (u.length + j) =
      (matchA v j).map
        (fun m => RMatch.mk (u.length + m.start) (u.length + m.gstart) (u.length + m.gend)) := by
  unfold matchA
  rw [wsRun_append]
  by_cases hw0 : (wsRun v j == 0) = true
  · rw [if_pos hw0, if_pos hw0]; simp
  · rw [if_neg hw0, if_neg hw0]
    rw [show u.length + j + wsRun v j = u.length + (j + wsRun v j) by omega]
    rw [tryDigits_append u v _ _ (endA_append u v)]
    cases h2 : tryDigits v (j + wsRun v j) 2 (endA v) with
    | some g => simp [h2]
    | none =>
      simp only [h2, Option.map_none']
      rw [tryDigits_append u v _ _ (endA_append u v)]
      cases h1 : tryDigits v (j + wsRun v j) 1 (endA v) with
      | some g => simp [h1]
      | none => simp [h1]

/-! ## Concrete matches at a level token -/

lemma matchA_nl_level {lv : List Char} (hlv : levelTok lv = true) :
    matchA ('\n' :: lv) 0 = some ⟨0, 1, lv.length + 1⟩ := by
  have hnl : pyWs '\n' = true := by decide
  rcases levelTok_shapes hlv with ⟨a, h, ha⟩ | ⟨a, b, h, ha, hb⟩ | ⟨a, b, h, ha, hb⟩ <;> subst h
  · have hpa : pyWs a = false := pyWs_of_isDig ha
    simp [matchA, wsRun, tryDigits, kDigits, endA, ha, hpa, hnl]
  · rcases Bool.or_eq_true _ _ |>.mp hb with hb | hb
    · have hpa : pyWs a = false := pyWs_of_isDig ha
      simp [matchA, wsRun, tryDigits, kDigits, endA, ha, hb, hpa, hnl]
    · rw [beq_iff_eq.mp hb]
      have hpa : pyWs a = false := pyWs_of_isDig ha
      have hdp : isDig '+' = false := by decide
      simp [matchA, wsRun, tryDigits, kDigits, endA, ha, hpa, hnl, hdp]
  · have hpa : pyWs a = false := pyWs_of_isDig ha
    simp [matchA, wsRun, tryDigits, kDigits, endA, ha, hb, hpa, hnl]

lemma matchB_level {lv : List Char} (hlv : levelTok lv = true) :
    matchB lv 0 = some ⟨0, 0, lv.length⟩ := by
  rcases levelTok_shapes hlv with ⟨a, h, ha⟩ | ⟨a, b, h, ha, hb⟩ | ⟨a, b, h, ha, hb⟩ <;> subst h
  · simp [matchB, tryDigits, kDigits, endB, ha]
  · rcases Bool.or_eq_true _ _ |>.mp hb with hb | hb
    · simp [matchB, tryDigits, kDigits, endB, ha, hb]
    · rw [beq_iff_eq.mp hb]
      have hdp : isDig '+' = false := by decide
      simp [matchB, tryDigits, kDigits, endB, ha, hdp]
  · simp [matchB, tryDigits, kDigits, endB, ha, hb]

lemma matchA_none_of_nonws {l : List Char} {i : Nat}
    (h : ∀ c, l.get? i = some c → pyWs c = false) : matchA l i = none := by
  unfold matchA
  rw [wsRun_zero h]
  simp

lemma finditerA_level {lv : List Char} (hlv : levelTok lv = true) :
    finditerA lv = [] :=
  goIter_nil (fun j _ => matchA_none_of_nonws (fun c hc => levelTok_get_nonws hlv j c hc))
    (lv.length + 1) 0

lemma finditerB_level {lv : List Char} (hlv : levelTok lv = true) :
    finditerB lv = [⟨0, 0, lv.length⟩] := by
  unfold finditerB
  have hlen : 0 < lv.length := List.length_pos.mpr (levelTok_ne_nil hlv)
  simp only [goIter]
  rw [if_pos hlen]
  simp only [matchB_level hlv]
  rw [goIter_stop (show lv.length ≤ (RMatch.mk 0 0 lv.length).gend from le_refl _)]

lemma matchA_at_level {nd lv : List Char} (hlv : levelTok lv = true) :
    matchA (nd ++ '\n' :: lv) nd.length =
      some ⟨nd.length, nd.length + 1, nd.length + (lv.length + 1)⟩ := by
  have h := matchA_append nd ('\n' :: lv) 0
  rw [Nat.add_zero] at h
  rw [h, matchA_nl_level hlv]
  simp

/-! ## Canonical-input facts for the idempotence claim -/

lemma pyStrip_nil : pyStrip [] = [] := rfl

lemma capwords_nil : capwords [] = [] := rfl

lemma pyStrip_nl_level {lv : List Char} (hlv : levelTok lv = true) :
    pyStrip ('\n' :: lv) = lv := by
  unfold pyStrip
  have h1 : List.dropWhile pyWs ('\n' :: lv) = lv := by
    rw [List.dropWhile_cons, if_pos (by decide)]
    cases hl : lv with
    | nil => rfl
    | cons a rest =>
      have ha := pyWs_of_isDig (levelTok_head hlv a rest hl)
      rw [List.dropWhile_cons, if_neg (by simp [ha])]
  rw [h1]
  have h2 : List.dropWhile pyWs lv.reverse = lv.reverse := by
    cases hr : lv.reverse with
    | nil => rfl
    | cons c rest =>
      have hcl : lv.getLast? = some c := by
        rw [List.getLast?_eq_head?_reverse, hr, List.head?_cons]
      rw [List.dropWhile_cons, if_neg (by simp [levelTok_getLast_nonws hlv c hcl])]
  rw [h2, List.reverse_reverse]

lemma pyStrip_name_level {nd lv : List Char} (hnd : nd ≠ [])
    (hstrip : pyStrip nd = nd) (hlv : levelTok lv = true) :
    pyStrip (nd ++ '\n' :: lv) = nd ++ '\n' :: lv := by
  obtain ⟨hh, hl⟩ := strip_bounds hstrip
  apply pyStrip_eq_self
  · intro c hc
    cases nd with
    | nil => exact absurd rfl hnd
    | cons x xs =>
      rw [List.cons_append, List.head?_cons, Option.some.injEq] at hc
      subst hc
      exact hh x List.head?_cons
  · intro c hc
    rw [List.getLast?_append] at hc
    have hlvne := levelTok_ne_nil hlv
    obtain ⟨cl, hcl⟩ := Option.isSome_iff_exists.mp (List.getLast?_isSome.mpr hlvne)
    rw [getLast?_cons_ne_nil hlvne, hcl] at hc
    have hclc : cl = c := by simpa [Option.or] using hc
    subst hclc
    exact levelTok_getLast_nonws hlv cl hcl

lemma matchA_before_level {nd lv : List Char} (hnd : nd ≠ [])
    (hstrip : pyStrip nd = nd) :
    ∀ j m, j < nd.length → matchA (nd ++ '\n' :: lv) j = some m →
      m.gend ≤ nd.length := by
  intro j m hj hm
  obtain ⟨-, hgs, hge, -, hws, hgrp⟩ := matchA_spec hm
  by_contra hgt
  push_neg at hgt
  have hn1 : 0 < nd.length := List.length_pos.mpr hnd
  by_cases hgs2 : m.gstart ≤ nd.length
  · obtain ⟨c, hc, hdp⟩ := hgrp nd.length hgs2 hgt
    have hnl : (nd ++ '\n' :: lv).get? nd.length = some '\n' := by
      rw [List.get?_append_right (le_refl _), Nat.sub_self]
      rfl
    rw [hnl, Option.some.injEq] at hc
    subst hc
    exact absurd hdp (by decide)
  · push_neg at hgs2
    obtain ⟨c, hc, hws2⟩ := hws (nd.length - 1) (by omega) (by omega)
    obtain ⟨cl, hcl⟩ := Option.isSome_iff_exists.mp (List.getLast?_isSome.mpr hnd)
    have hget : nd.get? (nd.length - 1) = some cl := by
      rw [← List.getLast?_eq_get?]
      exact hcl
    have hc2 : (nd ++ '\n' :: lv).get? (nd.length - 1) = some cl := by
      rw [List.get?_append (by omega)]
      exact hget
    rw [hc2, Option.some.injEq] at hc
    subst hc
    have hnw := (strip_bounds hstrip).2 cl hcl
    rw [hnw] at hws2
    cases hws2

/-- Unfolding of `clean_and_format_text` once a last match has been
identified: the output is name, level and suffix joined with newlines. -/
lemma clean_eq_of_getLast {s : String} {m : RMatch}
    (hne : s.data.isEmpty = false)
    (hm : (msel (pyStrip s.data)).getLast? = some m) :
    clean_and_format_text s =
      (some (String.mk (capwords (pyStrip ((pyStrip s.data).take m.start)) ++ '\n' ::
          sliceL (pyStrip s.data) m.gstart m.gend ++
          (if (pyStrip ((pyStrip s.data).drop m.gend)).isEmpty then []
           else '\n' :: pyStrip ((pyStrip s.data).drop m.gend)))),
       some (String.mk (sliceL (pyStrip s.data) m.gstart m.gend))) := by
  unfold clean_and_format_text
  simp only [hne, Bool.false_eq_true, if_false, hm]

/-- Claim C5: `clean_and_format_text` is a fixed point on already-canonical
input `name ++ "\n" ++ level`: when the name is canonical (stripped and
capword-fixed) and contains no level token, and the level is 1-2 digits with
an optional plus, the formatted output is the input itself and the extracted
level is that level. -/
theorem claim_C5 (name level : String)
    (hstrip : pyStrip name.data = name.data)
    (hcap : capwords name.data = name.data)
    (hA0 : finditerA name.data = [])
    (hB0 : finditerB name.data = [])
    (hlv : levelTok level.data = true) :
    clean_and_format_text (name ++ "\n" ++ level) =
      (some (name ++ "\n" ++ level), some level) := by
  have hsd : (name ++ "\n" ++ level).data = name.data ++ '\n' :: level.data := by
    rw [String.data_append, String.data_append, List.append_assoc]
    rfl
  have hlvne := levelTok_ne_nil hlv
  by_cases hnd : name.data = []
  · -- empty name: the trimmed value is the bare level; the fallback fires
    rw [hnd, List.nil_append] at hsd
    have hne : (name ++ "\n" ++ level).data.isEmpty = false := by
      rw [hsd]; simp
    have hm : (msel (pyStrip (name ++ "\n" ++ level).data)).getLast? =
        some ⟨0, 0, level.data.length⟩ := by
      rw [hsd, pyStrip_nl_level hlv]
      unfold msel
      rw [finditerA_level hlv]
      simp [finditerB_level hlv]
    have hslice0 : sliceL level.data 0 level.data.length = level.data := by
      unfold sliceL
      rw [List.take_length, List.drop_zero]
    have hdrop0 : level.data.drop level.data.length = [] := List.drop_length _
    rw [clean_eq_of_getLast hne hm]
    rw [Prod.mk.injEq]
    constructor
    · apply congrArg some
      apply String.ext
      rw [hsd, pyStrip_nl_level hlv]
      simp only [hslice0, hdrop0, List.take_zero, pyStrip_nil, capwords_nil,
        List.isEmpty_nil, if_true, List.append_nil, List.nil_append]
    · apply congrArg some
      apply String.ext
      rw [hsd, pyStrip_nl_level hlv]
      simp only [hslice0]
  · -- non-empty canonical name
    have hne : (name ++ "\n" ++ level).data.isEmpty = false := by
      rw [hsd]
      rcases List.exists_cons_of_ne_nil hnd with ⟨x, xs, hx⟩
      rw [hx]
      simp
    have hstrip_sdl := pyStrip_name_level hnd hstrip hlv
    have hlen : (name.data ++ '\n' :: level.data).length =
        name.data.length + (level.data.length + 1) := by
      simp [List.length_append]
    have hq := @matchA_at_level name.data level.data hlv
    have hmono : ∀ j m, matchA (name.data ++ '\n' :: level.data) j = some m →
        j < m.gend := by
      intro j m hm
      obtain ⟨-, h1, h2, -⟩ := matchA_spec hm
      omega
    have hql : name.data.length < (name.data ++ '\n' :: level.data).length := by
      rw [hlen]; omega
    obtain ⟨hfa_ne, hfa_last⟩ :=
      goIter_last hmono hq (by rw [hlen]) hql (matchA_before_level hnd hstrip)
        ((name.data ++ '\n' :: level.data).length + 1) 0 (by omega) (by omega)
    have hfa_ne2 : finditerA (name.data ++ '\n' :: level.data) ≠ [] := hfa_ne
    have hfa_last2 : (finditerA (name.data ++ '\n' :: level.data)).getLast? =
        some ⟨name.data.length, name.data.length + 1,
              name.data.length + (level.data.length + 1)⟩ := hfa_last
    have hm : (msel (pyStrip (name ++ "\n" ++ level).data)).getLast? =
        some ⟨name.data.length, name.data.length + 1,
              name.data.length + (level.data.length + 1)⟩ := by
      rw [hsd, hstrip_sdl]
      unfold msel
      rw [if_neg (by simp [hfa_ne2])]
      exact hfa_last2
    rw [clean_eq_of_getLast hne hm]
    have htake : (name.data ++ '\n' :: level.data).take name.data.length = name.data :=
      List.take_left name.data _
    have hl1 : (name.data ++ ['\n']).length = name.data.length + 1 := by simp
    have hdrop1 : (name.data ++ '\n' :: level.data).drop (name.data.length + 1) =
        level.data := by
      rw [List.append_cons, ← hl1, List.drop_left]
    have hslice : sliceL (name.data ++ '\n' :: level.data) (name.data.length + 1)
        (name.data.length + (level.data.length + 1)) = level.data := by
      unfold sliceL
      rw [← hlen, List.take_length, hdrop1]
    have hdropend : (name.data ++ '\n' :: level.data).drop
        (name.data.length + (level.data.length + 1)) = [] := by
      rw [← hlen, List.drop_length]
    rw [Prod.mk.injEq]
    constructor
    · apply congrArg some
      apply String.ext
      rw [hsd, hstrip_sdl]
      simp only [htake, hslice, hdropend, hstrip, hcap, pyStrip_nil,
        List.isEmpty_nil, if_true, List.append_nil]
    · apply congrArg some
      apply String.ext
      rw [hsd, hstrip_sdl]
      simp only [hslice]

/-! ## Remaining facts shared by the text claims -/

lemma data_isEmpty_false_of_ne {s : String} (h : s ≠ "") :
    s.data.isEmpty = false := by
  rw [List.isEmpty_eq_false]
  intro hd
  exact h (String.ext (by rw [hd]))

lemma pyStrip_level {lv : List Char} (hlv : levelTok lv = true) :
    pyStrip lv = lv := by
  apply pyStrip_eq_self
  · intro c hc
    cases lv with
    | nil => cases hc
    | cons a rest =>
      rw [List.head?_cons, Option.some.injEq] at hc
      subst hc
      exact pyWs_of_isDig (levelTok_head hlv a rest rfl)
  · exact levelTok_getLast_nonws hlv

/-- The fallback branch: with no match of either pattern, the stripped text
comes back unchanged with no level. -/
lemma clean_no_match (s : String) (hs : s ≠ "")
    (hA : finditerA (pyStrip s.data) = []) (hB : finditerB (pyStrip s.data) = []) :
    clean_and_format_text s = (some (String.mk (pyStrip s.data)), none) := by
  have hne := data_isEmpty_false_of_ne hs
  have hm : (msel (pyStrip s.data)).getLast? = none := by
    unfold msel
    rw [hA, hB]
    simp
  unfold clean_and_format_text
  simp only [hne, Bool.false_eq_true, if_false, hm]

/-! ## The claims -/

/-- Claim C1, counterexample: on `"some book (read with me) 5"` the function
does NOT return the pair claimed by the spec (`"Some Book\n5\n(Read With Me)"`
with the parenthetical as a trailing suffix line). -/
theorem claim_C1_counterexample :
    clean_and_format_text "some book (read with me) 5" ≠
      (some "Some Book\n5\n(Read With Me)", some "5") := by decide

/-- Claim C1, amended: the parenthetical precedes the level, so it is captured
into the name part and passed through `capwords` (leaving `"(read"` with a
lowercase `r`, since `(` is that word's first character); the suffix is empty.
The result is `("Some Book (read With Me)\n5", "5")`. -/
theorem claim_C1 :
    clean_and_format_text "some book (read with me) 5" =
      (some "Some Book (read With Me)\n5", some "5") := by decide

/-- Claim C2: whenever the whitespace-delimited pattern has more than one
match in the trimmed input, the extracted level is the group of the LAST
match; in particular `"Level 3 readers 12+"` yields level `"12+"`, not
`"3"`. -/
theorem claim_C2 :
    (∀ (s : String) (m : RMatch),
      (finditerA (pyStrip s.data)).getLast? = some m →
      1 < (finditerA (pyStrip s.data)).length →
      (clean_and_format_text s).2 =
        some (String.mk (sliceL (pyStrip s.data) m.gstart m.gend))) ∧
    clean_and_format_text "Level 3 readers 12+" =
      (some "Level 3 Readers\n12+", some "12+") := by
  constructor
  · intro s m hm hlen
    have hs : s ≠ "" := by
      intro h
      subst h
      exact absurd hlen (by decide)
    have hne := data_isEmpty_false_of_ne hs
    have hAne : finditerA (pyStrip s.data) ≠ [] := by
      intro h
      rw [h] at hlen
      simp at hlen
    have hm2 : (msel (pyStrip s.data)).getLast? = some m := by
      unfold msel
      rw [if_neg (by simp [hAne])]
      exact hm
    rw [clean_eq_of_getLast hne hm2]
  · decide

/-- Witness for claim C2 at `"Level 3 readers 12+"`, whose matches are `"3"`
(at 5) and `"12+"` (at 15). -/
theorem claim_C2_witness :
    1 < (finditerA (pyStrip ("Level 3 readers 12+" : String).data)).length ∧
    (clean_and_format_text "Level 3 readers 12+").2 =
      some (String.mk (sliceL (pyStrip ("Level 3 readers 12+" : String).data) 16 19)) :=
  ⟨by decide, claim_C2.1 "Level 3 readers 12+" ⟨15, 16, 19⟩ (by decide) (by decide)⟩

/-- Claim C3, counterexample: for `"big  bad 8"` (two spaces inside the name)
the name part of the output is `capwords`' "Big Bad", not the spec-described
"the substring before the match with the first letter of every word
capitalized", which keeps both spaces ("Big  Bad"). -/
theorem claim_C3_counterexample :
    (msel (pyStrip ("big  bad 8" : String).data)).getLast? = some ⟨8, 9, 10⟩ ∧
    (clean_and_format_text "big  bad 8").1 ≠
      some (String.mk
        (specTitleCase (pyStrip ((pyStrip ("big  bad 8" : String).data).take 8)) ++
          '\n' :: sliceL (pyStrip ("big  bad 8" : String).data) 9 10)) := by decide

/-- Claim C3, amended: the name part is Python `string.capwords` of the
trimmed prefix before the match: split on whitespace runs, uppercase each
word's first character and lowercase the rest, and join with single spaces
(collapsing whitespace runs); e.g. `"a day in london 8"` gives
`("A Day In London\n8", "8")`. -/
theorem claim_C3 :
    (∀ (s : String) (m : RMatch), s ≠ "" →
      (msel (pyStrip s.data)).getLast? = some m →
      (clean_and_format_text s).1 =
        some (String.mk (capwords (pyStrip ((pyStrip s.data).take m.start)) ++ '\n' ::
          sliceL (pyStrip s.data) m.gstart m.gend ++
          (if (pyStrip ((pyStrip s.data).drop m.gend)).isEmpty then []
           else '\n' :: pyStrip ((pyStrip s.data).drop m.gend))))) ∧
    clean_and_format_text "a day in london 8" =
      (some "A Day In London\n8", some "8") := by
  constructor
  · intro s m hs hm
    rw [clean_eq_of_getLast (data_isEmpty_false_of_ne hs) hm]
  · decide

/-- Witness for claim C3 at `"a day in london 8"`, whose level match is `"8"`
at position 15. -/
theorem claim_C3_witness :
    ("a day in london 8" : String) ≠ "" ∧
    (msel (pyStrip ("a day in london 8" : String).data)).getLast? =
      some ⟨15, 16, 17⟩ ∧
    (clean_and_format_text "a day in london 8").1 =
      some (String.mk
        (capwords (pyStrip ((pyStrip ("a day in london 8" : String).data).take 15)) ++
          '\n' :: sliceL (pyStrip ("a day in london 8" : String).data) 16 17 ++
          (if (pyStrip ((pyStrip ("a day in london 8" : String).data).drop 17)).isEmpty
           then []
           else '\n' :: pyStrip ((pyStrip ("a day in london 8" : String).data).drop 17)))) :=
  ⟨by decide, by decide,
    claim_C3.1 "a day in london 8" ⟨15, 16, 17⟩ (by decide) (by decide)⟩

/-- Claim C4: a non-empty input with no level token at all — neither a
whitespace-delimited match nor an end-anchored one — passes through trimmed,
with no level; in particular `"Charlotte's Web"`. -/
theorem claim_C4 :
    (∀ s : String, s ≠ "" → finditerA (pyStrip s.data) = [] →
      finditerB (pyStrip s.data) = [] →
      clean_and_format_text s = (some (String.mk (pyStrip s.data)), none)) ∧
    clean_and_format_text "Charlotte\x27s Web" = (some "Charlotte\x27s Web", none) := by
  constructor
  · exact clean_no_match
  · decide

/-- Witness for claim C4 at `"Charlotte's Web"`. -/
theorem claim_C4_witness :
    clean_and_format_text "Charlotte\x27s Web" =
      (some (String.mk (pyStrip ("Charlotte\x27s Web" : String).data)), none) :=
  claim_C4.1 "Charlotte\x27s Web" (by decide) (by decide) (by decide)

/-- Witness for claim C5 at `"Some Book" ++ "\n" ++ "5"`. -/
theorem claim_C5_witness :
    levelTok ("5" : String).data = true ∧
    clean_and_format_text ("Some Book" ++ "\n" ++ "5") =
      (some ("Some Book" ++ "\n" ++ "5"), some "5") :=
  ⟨by decide,
    claim_C5 "Some Book" "5" (by decide) (by decide) (by decide) (by decide) (by decide)⟩

/-- Claim C6: the function is total — every input yields a defined result
(the empty input yields `(none, none)`, every other input yields a formatted
string) — and unparseable inputs degrade to the no-level fallback. -/
theorem claim_C6 :
    (∀ s : String, clean_and_format_text s = (none, none) ∨
      ∃ t, (clean_and_format_text s).1 = some t) ∧
    (∀ s : String, s ≠ "" → finditerA (pyStrip s.data) = [] →
      finditerB (pyStrip s.data) = [] →
      clean_and_format_text s = (some (String.mk (pyStrip s.data)), none)) := by
  constructor
  · intro s
    by_cases hs : s.data.isEmpty = true
    · left
      unfold clean_and_format_text
      simp only [hs, if_true]
    · right
      have hne : s.data.isEmpty = false := by
        revert hs
        cases s.data.isEmpty <;> simp
      unfold clean_and_format_text
      simp only [hne, Bool.false_eq_true, if_false]
      cases hm : (msel (pyStrip s.data)).getLast? with
      | some m => simp only [hm]; exact ⟨_, rfl⟩
      | none => simp only [hm]; exact ⟨_, rfl⟩
  · exact clean_no_match

/-- Witness for claim C6 at the unparseable input `"??"`. -/
theorem claim_C6_witness :
    clean_and_format_text "??" = (some (String.mk (pyStrip ("??" : String).data)), none) :=
  claim_C6.2 "??" (by decide) (by decide) (by decide)

/-- Claim C10: an input that is exactly a level token formats to a leading
newline followed by the level — the empty name part is still joined with the
newline separator — and the level is extracted. -/
theorem claim_C10 (level : String) (hlv : levelTok level.data = true) :
    clean_and_format_text level = (some ("\n" ++ level), some level) := by
  have hne : level.data.isEmpty = false :=
    List.isEmpty_eq_false.mpr (levelTok_ne_nil hlv)
  have hm : (msel (pyStrip level.data)).getLast? =
      some ⟨0, 0, level.data.length⟩ := by
    rw [pyStrip_level hlv]
    unfold msel
    rw [finditerA_level hlv]
    simp [finditerB_level hlv]
  have hslice0 : sliceL level.data 0 level.data.length = level.data := by
    unfold sliceL
    rw [List.take_length, List.drop_zero]
  have hdrop0 : level.data.drop level.data.length = [] := List.drop_length _
  rw [clean_eq_of_getLast hne hm]
  rw [Prod.mk.injEq]
  constructor
  · apply congrArg some
    apply String.ext
    rw [pyStrip_level hlv]
    simp only [hslice0, hdrop0, List.take_zero, pyStrip_nil, capwords_nil,
      List.isEmpty_nil, if_true, List.append_nil, List.nil_append]
    rw [String.data_append]
    rfl
  · apply congrArg some
    apply String.ext
    rw [pyStrip_level hlv]
    simp only [hslice0]

/-- Witness for claim C10 at `"12+"`. -/
theorem claim_C10_witness :
    levelTok ("12+" : String).data = true ∧
    clean_and_format_text "12+" = (some ("\n" ++ "12+"), some "12+") :=
  ⟨by decide, claim_C10 "12+" (by decide)⟩

/-! ## Facts about the sheet traversal -/

lemma bool_eq_false {b : Bool} (h : ¬b = true) : b = false := by
  cases b
  · rfl
  · exact absurd rfl h

lemma mem_of_getLast? {α : Type} {l : List α} {a : α} (h : l.getLast? = some a) :
    a ∈ l := by
  induction l with
  | nil => cases h
  | cons x xs ih =>
    cases xs with
    | nil =>
      have hx : x = a := by simpa [List.getLast?] using h
      subst hx
      simp
    | cons y ys =>
      rw [List.getLast?_cons_cons] at h
      exact List.mem_cons_of_mem x (ih h)

lemma msel_getLast_bounds {l : List Char} {m : RMatch}
    (h : (msel l).getLast? = some m) : m.gstart < m.gend ∧ m.gend ≤ l.length := by
  have hmem : m ∈ msel l := mem_of_getLast? h
  unfold msel at hmem
  by_cases he : (finditerA l).isEmpty = true
  · rw [if_pos he] at hmem
    obtain ⟨j, hj⟩ := goIter_mem hmem
    obtain ⟨-, hg, hlt, hle⟩ := matchB_spec hj
    omega
  · rw [if_neg he] at hmem
    obtain ⟨j, hj⟩ := goIter_mem hmem
    obtain ⟨-, h1, h2, h3, -⟩ := matchA_spec hj
    omega

lemma clean_level_ne_nil {v lvl : String}
    (h : (clean_and_format_text v).2 = some lvl) : lvl.data.isEmpty = false := by
  unfold clean_and_format_text at h
  by_cases hv : v.data.isEmpty = true
  · rw [if_pos hv] at h
    simp at h
  · have hne := bool_eq_false hv
    simp only [hne, Bool.false_eq_true, if_false] at h
    cases hm : (msel (pyStrip v.data)).getLast? with
    | none =>
      simp only [hm] at h
      exact Option.noConfusion h
    | some m =>
      simp only [hm] at h
      obtain ⟨hgs, hge⟩ := msel_getLast_bounds hm
      have hd : lvl.data = sliceL (pyStrip v.data) m.gstart m.gend := by
        have := congrArg String.data (Option.some.injEq _ _ ▸ h : String.mk _ = lvl).symm
        simpa using this
      rw [hd, List.isEmpty_eq_false]
      intro hnil
      have := congrArg List.length hnil
      simp only [sliceL, List.length_drop, List.length_take, List.length_nil] at this
      omega

lemma processCell_other {map : List (String × Nat)} {wb : Workbook}
    {rc : Nat × Nat} {r c : Nat} (h : rc ≠ (r, c)) :
    (processCell map wb rc).ws.cells r c = wb.ws.cells r c := by
  have hne : ¬(r = rc.1 ∧ c = rc.2) := by
    rcases rc with ⟨a, b⟩
    intro hrc
    exact h (by simp [hrc.1, hrc.2])
  unfold processCell
  dsimp only
  cases hv : (wb.ws.cells rc.1 rc.2).value with
  | none => rfl
  | some v =>
    simp only [hv]
    by_cases hve : v.data.isEmpty = true
    · rw [if_pos hve]
    · simp only [bool_eq_false hve, Bool.false_eq_true, if_false]
      cases hcl : (clean_and_format_text v).2 with
      | none => simp only [hcl]; simp [setCell, hne]
      | some lvl =>
        simp only [hcl]
        by_cases hle : lvl.data.isEmpty = true
        · simp only [hle, if_true]; simp [setCell, hne]
        · simp only [bool_eq_false hle, Bool.false_eq_true, if_false]
          cases hdl : dlookup map lvl with
          | some ref => simp only [hdl]; simp [setCell, hne]
          | none => simp only [hdl]; simp [setCell, hne]

lemma processCell_state {map : List (String × Nat)} {wb : Workbook}
    {rc : Nat × Nat} :
    wb.nextId ≤ (processCell map wb rc).nextId ∧
      ∀ i, i < wb.nextId → (processCell map wb rc).fills i = wb.fills i := by
  unfold processCell
  dsimp only
  cases hv : (wb.ws.cells rc.1 rc.2).value with
  | none => exact ⟨le_refl _, fun i _ => rfl⟩
  | some v =>
    simp only [hv]
    by_cases hve : v.data.isEmpty = true
    · rw [if_pos hve]; exact ⟨le_refl _, fun i _ => rfl⟩
    · simp only [bool_eq_false hve, Bool.false_eq_true, if_false]
      cases hcl : (clean_and_format_text v).2 with
      | none => simp only [hcl]; simp
      | some lvl =>
        simp only [hcl]
        by_cases hle : lvl.data.isEmpty = true
        · simp only [hle, if_true]; simp
        · simp only [bool_eq_false hle, Bool.false_eq_true, if_false]
          cases hdl : dlookup map lvl with
          | some ref =>
            simp only [hdl]
            refine ⟨by omega, fun i hi => ?_⟩
            rw [if_neg (by omega)]
          | none => simp only [hdl]; simp

lemma processCell_miss {map : List (String × Nat)} {wb : Workbook} {r c : Nat}
    (hmiss : levelKeyMiss map ((wb.ws.cells r c).value) = true) :
    ((processCell map wb (r, c)).ws.cells r c).fill = (wb.ws.cells r c).fill ∧
      (processCell map wb (r, c)).fills = wb.fills ∧
      (processCell map wb (r, c)).nextId = wb.nextId := by
  unfold levelKeyMiss at hmiss
  unfold processCell
  dsimp only
  cases hv : (wb.ws.cells r c).value with
  | none => exact ⟨rfl, rfl, rfl⟩
  | some v =>
    simp only [hv] at hmiss ⊢
    by_cases hve : v.data.isEmpty = true
    · rw [if_pos hve]; exact ⟨rfl, rfl, rfl⟩
    · simp only [bool_eq_false hve, Bool.false_eq_true, Bool.false_or, if_false] at hmiss ⊢
      cases hcl : (clean_and_format_text v).2 with
      | none =>
        simp only [hcl]
        refine ⟨by simp [setCell], by simp, by simp⟩
      | some lvl =>
        simp only [hcl] at hmiss ⊢
        have hdl : dlookup map lvl = none := Option.isNone_iff_eq_none.mp hmiss
        by_cases hle : lvl.data.isEmpty = true
        · simp only [hle, if_true]
          refine ⟨by simp [setCell], by simp, by simp⟩
        · simp only [bool_eq_false hle, Bool.false_eq_true, if_false, hdl]
          refine ⟨by simp [setCell], by simp, by simp⟩

lemma runFold_frame (map : List (String × Nat)) (r c : Nat) :
    ∀ (ps : List (Nat × Nat)) (wb : Workbook), (r, c) ∉ ps →
      ((ps.foldl (processCell map) wb).ws.cells r c = wb.ws.cells r c) ∧
      (∀ i, i < wb.nextId → (ps.foldl (processCell map) wb).fills i = wb.fills i) ∧
      wb.nextId ≤ (ps.foldl (processCell map) wb).nextId := by
  intro ps
  induction ps with
  | nil => intro wb _; exact ⟨rfl, fun i _ => rfl, le_refl _⟩
  | cons p ps ih =>
    intro wb h
    rw [List.foldl_cons]
    have hp : p ≠ (r, c) := fun he => h (he ▸ List.mem_cons_self p ps)
    obtain ⟨h1, h2, h3⟩ := ih (processCell map wb p)
      (fun hm => h (List.mem_cons_of_mem p hm))
    obtain ⟨hs1, hs2⟩ := @processCell_state map wb p
    refine ⟨?_, ?_, ?_⟩
    · rw [h1, processCell_other hp]
    · intro i hi
      rw [h2 i (lt_of_lt_of_le hi hs1), hs2 i hi]
    · omega

lemma runFold_miss (map : List (String × Nat)) (r c : Nat) :
    ∀ (ps : List (Nat × Nat)) (wb : Workbook), ps.count (r, c) ≤ 1 →
      levelKeyMiss map ((wb.ws.cells r c).value) = true →
      (wb.ws.cells r c).fill < wb.nextId →
      ((ps.foldl (processCell map) wb).ws.cells r c).fill = (wb.ws.cells r c).fill ∧
      (ps.foldl (processCell map) wb).fills ((wb.ws.cells r c).fill) =
        wb.fills ((wb.ws.cells r c).fill) := by
  intro ps
  induction ps with
  | nil => intro wb _ _ _; exact ⟨rfl, rfl⟩
  | cons p ps ih =>
    intro wb hcount hmiss hfill
    rw [List.foldl_cons]
    by_cases hp : p = (r, c)
    · subst hp
      have h0 : (r, c) ∉ ps := by
        rw [List.count_cons, beq_self_eq_true] at hcount
        simp only [if_true] at hcount
        exact List.count_eq_zero.mp (by omega)
      obtain ⟨hm1, hm2, hm3⟩ := @processCell_miss map wb r c hmiss
      obtain ⟨hf1, hf2, hf3⟩ := runFold_frame map r c ps (processCell map wb (r, c)) h0
      constructor
      · rw [hf1, hm1]
      · have hlt : (wb.ws.cells r c).fill < (processCell map wb (r, c)).nextId := by
          rw [hm3]; exact hfill
        rw [hf2 _ hlt, hm2]
    · have hcell : (processCell map wb p).ws.cells r c = wb.ws.cells r c :=
        processCell_other hp
      obtain ⟨hs1, hs2⟩ := @processCell_state map wb p
      have hcount2 : ps.count (r, c) ≤ 1 := by
        rw [List.count_cons, beq_eq_false_iff_ne.mpr hp] at hcount
        simp only [Bool.false_eq_true, if_false] at hcount
        omega
      obtain ⟨ih1, ih2⟩ := ih (processCell map wb p) hcount2
        (by rw [hcell]; exact hmiss) (by rw [hcell]; exact lt_of_lt_of_le hfill hs1)
      rw [hcell] at ih1 ih2
      exact ⟨ih1, ih2.trans (hs2 _ hfill)⟩

lemma nodup_count_le_one {α : Type} [BEq α] [LawfulBEq α] {l : List α}
    (h : l.Nodup) (a : α) : l.count a ≤ 1 := by
  induction l with
  | nil => simp
  | cons x xs ih =>
    rw [List.nodup_cons] at h
    rw [List.count_cons]
    by_cases hxa : x = a
    · subst hxa
      rw [List.count_eq_zero.mpr h.1, beq_self_eq_true]
      simp
    · rw [beq_eq_false_iff_ne.mpr hxa]
      simpa using ih h.2

lemma count_flat_le_one (cols : List Nat) (hc : cols.Nodup) (r c : Nat) :
    ∀ rows : List Nat, rows.Nodup →
      ((rows.flatMap (fun a => cols.map (fun b => (a, b)))).count (r, c)) ≤ 1 := by
  intro rows
  induction rows with
  | nil =>
    intro _
    rw [show (([] : List Nat).flatMap (fun a => cols.map (fun b => (a, b)))) = []
      from rfl]
    simp
  | cons a rows ih =>
    intro hr
    rw [List.nodup_cons] at hr
    obtain ⟨ha, hr2⟩ := hr
    rw [List.flatMap_cons, List.count_append]
    by_cases har : a = r
    · subst har
      have h2 : ((rows.flatMap (fun x => cols.map fun b => (x, b))).count (a, c)) = 0 := by
        rw [List.count_eq_zero]
        intro hmem
        rw [List.mem_flatMap] at hmem
        obtain ⟨x, hx, hmemx⟩ := hmem
        rw [List.mem_map] at hmemx
        obtain ⟨y, -, hxy⟩ := hmemx
        rw [Prod.mk.injEq] at hxy
        exact ha (hxy.1 ▸ hx)
      have h1 : ((cols.map fun b => (a, b)).count (a, c)) ≤ 1 :=
        nodup_count_le_one
          (hc.map (fun x y hxy => by simpa using congrArg Prod.snd hxy)) _
      omega
    · have h1 : ((cols.map fun b => (a, b)).count (r, c)) = 0 := by
        rw [List.count_eq_zero]
        intro hmem
        rw [List.mem_map] at hmem
        obtain ⟨y, -, hxy⟩ := hmem
        rw [Prod.mk.injEq] at hxy
        exact har hxy.1
      have h2 := ih hr2
      omega

lemma count_dataPositions_le_one (maxCol r c : Nat) :
    (dataPositions maxCol).count (r, c) ≤ 1 := by
  unfold dataPositions
  exact count_flat_le_one _ (List.nodup_range' 6 (maxCol + 1 - 6)) r c _
    (List.nodup_range' 2 55)

/-- Claim C7: during the sheet traversal, a cell whose value extracts no
level, or a level absent from the legend map, keeps its prior fill: the fill
object id is unchanged and so are that object's contents (for any fill id
valid in the initial workbook). -/
theorem claim_C7 (wb : Workbook) (map : List (String × Nat)) (r c : Nat)
    (hmiss : levelKeyMiss map ((wb.ws.cells r c).value) = true)
    (hfill : (wb.ws.cells r c).fill < wb.nextId) :
    ((runTable wb map).ws.cells r c).fill = (wb.ws.cells r c).fill ∧
    (runTable wb map).fills ((wb.ws.cells r c).fill) =
      wb.fills ((wb.ws.cells r c).fill) := by
  unfold runTable
  exact runFold_miss map r c (dataPositions wb.ws.maxCol) wb
    (count_dataPositions_le_one wb.ws.maxCol r c) hmiss hfill

/-- Claim C9: when a processed cell's extracted level is a legend key, the
cell receives a freshly allocated fill object: its id is the allocation
counter, distinct from the legend's object, its contents equal the legend
fill's contents, and mutating either object afterwards leaves the other
unchanged. -/
theorem claim_C9 (wb : Workbook) (map : List (String × Nat)) (r c : Nat)
    (v lvl : String) (ref : Nat) (f : Fill)
    (hv : (wb.ws.cells r c).value = some v) (hvne : v.data.isEmpty = false)
    (hlvl : (clean_and_format_text v).2 = some lvl)
    (href : dlookup map lvl = some ref) (hfresh : ref < wb.nextId) :
    ((processCell map wb (r, c)).ws.cells r c).fill = wb.nextId ∧
    wb.nextId ≠ ref ∧
    (processCell map wb (r, c)).fills wb.nextId = wb.fills ref ∧
    (processCell map wb (r, c)).fills ref = wb.fills ref ∧
    (setFillContent (processCell map wb (r, c)) wb.nextId f).fills ref =
      (processCell map wb (r, c)).fills ref ∧
    (setFillContent (processCell map wb (r, c)) ref f).fills wb.nextId =
      (processCell map wb (r, c)).fills wb.nextId := by
  have hpc : processCell map wb (r, c) =
      { wb with
        ws := setCell wb.ws r c
          { value := (clean_and_format_text v).1, fill := wb.nextId,
            alignment := centerAlign },
        fills := fun i => if i = wb.nextId then wb.fills ref else wb.fills i,
        nextId := wb.nextId + 1 } := by
    unfold processCell
    dsimp only
    simp only [hv, hvne, Bool.false_eq_true, if_false, hlvl,
      clean_level_ne_nil hlvl, href]
  rw [hpc]
  have hne1 : ref ≠ wb.nextId := by omega
  have hne2 : wb.nextId ≠ ref := by omega
  refine ⟨?_, hne2, ?_, ?_, ?_, ?_⟩
  · simp [setCell]
  · simp
  · simp [hne1]
  · simp [setFillContent, hne1]
  · simp [setFillContent, hne2]

/-- Witness for claim C9: one data cell `"cat 8"` and a legend mapping `"8"`
to fill object 0. -/
theorem claim_C9_witness :
    ((processCell [("8", 0)]
        { sheetnames := [sheetName],
          ws := { maxCol := 6,
                  cells := fun _ _ =>
                    { value := some "cat 8", fill := 0,
                      alignment := { wrapText := false, vertical := "top", horizontal := "left" } } },
          fills := fun _ => { patternType := "solid", fgColor := "FF0000", bgColor := "FF0000" },
          nextId := 1 } (2, 6)).ws.cells 2 6).fill = 1 ∧
    (1 : Nat) ≠ 0 :=
  have h := claim_C9
    { sheetnames := [sheetName],
      ws := { maxCol := 6,
              cells := fun _ _ =>
                { value := some "cat 8", fill := 0,
                  alignment := { wrapText := false, vertical := "top", horizontal := "left" } } },
      fills := fun _ => { patternType := "solid", fgColor := "FF0000", bgColor := "FF0000" },
      nextId := 1 } [("8", 0)] 2 6 "cat 8" "8" 0
    { patternType := "none", fgColor := "A", bgColor := "B" }
    rfl (by decide) (by decide) (by decide) (by decide)
  ⟨h.1, h.2.1⟩

/-- Witness for claim C7: a sheet whose cells read `"book 9"` while the
legend only maps `"8"`, so no cell is recolored. -/
theorem claim_C7_witness :
    ((runTable
        { sheetnames := [sheetName],
          ws := { maxCol := 6,
                  cells := fun _ _ =>
                    { value := some "book 9", fill := 0,
                      alignment := { wrapText := false, vertical := "top", horizontal := "left" } } },
          fills := fun _ => { patternType := "solid", fgColor := "FF0000", bgColor := "FF0000" },
          nextId := 1 } [("8", 0)]).ws.cells 2 6).fill =
      (({ sheetnames := [sheetName],
          ws := { maxCol := 6,
                  cells := fun _ _ =>
                    { value := some "book 9", fill := 0,
                      alignment := { wrapText := false, vertical := "top", horizontal := "left" } } },
          fills := fun _ => { patternType := "solid", fgColor := "FF0000", bgColor := "FF0000" },
          nextId := 1 } : Workbook).ws.cells 2 6).fill :=
  (claim_C7
    { sheetnames := [sheetName],
      ws := { maxCol := 6,
              cells := fun _ _ =>
                { value := some "book 9", fill := 0,
                  alignment := { wrapText := false, vertical := "top", horizontal := "left" } } },
      fills := fun _ => { patternType := "solid", fgColor := "FF0000", bgColor := "FF0000" },
      nextId := 1 } [("8", 0)] 2 6 (by decide) (by decide)).1

/-- Claim C8: a missing input file, or a missing sheet, prints a diagnostic
and ends the run with no file written; when both are present the output file
is written. -/
theorem claim_C8 (fs : String → Option Workbook) (fn : String) :
    (fs fn = none → (update_excel_sheet fs fn).2 = none ∧
      "Error: File not found. Please ensure the Excel file is in the same folder." ∈
        (update_excel_sheet fs fn).1) ∧
    (∀ wb, fs fn = some wb → sheetName ∉ wb.sheetnames →
      (update_excel_sheet fs fn).2 = none ∧
      ("Error: Sheet \x27" ++ sheetName ++ "\x27 not found.") ∈
        (update_excel_sheet fs fn).1) ∧
    (∀ wb, fs fn = some wb → sheetName ∈ wb.sheetnames →
      (update_excel_sheet fs fn).2 =
        some (outputFilename, runTable wb (buildLegend wb.ws))) := by
  refine ⟨?_, ?_, ?_⟩
  · intro h
    unfold update_excel_sheet
    simp only [h]
    exact ⟨by simp, by simp⟩
  · intro wb hwb hsheet
    unfold update_excel_sheet
    simp only [hwb]
    rw [if_neg hsheet]
    exact ⟨by simp, by simp⟩
  · intro wb hwb hsheet
    unfold update_excel_sheet
    simp only [hwb]
    rw [if_pos hsheet]

/-- Witness for claim C8: an empty file system, so loading fails and
nothing is written. -/
theorem claim_C8_witness :
    (update_excel_sheet (fun _ => none) "records.xlsx").2 = none ∧
    "Error: File not found. Please ensure the Excel file is in the same folder." ∈
      (update_excel_sheet (fun _ => none) "records.xlsx").1 :=
  (claim_C8 (fun _ => none) "records.xlsx").1 rfl
